import Mathlib

/-! Verification of tgup2: download-strategy dispatch and file-relay pipeline.

A shallow embedding of `main.go`.  Go strings are embedded as Lean `String`s;
the URL of a request is decoded from JSON and so is valid UTF-8, and every
character the source searches for ('/', '.', the domain fragments, "Bearer ")
is ASCII, so that searching by character and searching by byte agree.
Library calls whose result depends on the outside world (the Telegram API,
the `yt-dlp` subprocess, the HTTP client, the file system, the random source,
the clock) are fields of an environment record; the control flow, the string
manipulation and the order of effects are the source's.
-/

namespace Tgup2

/-! ## Go `strings` helpers -/

/-- Go `strings.ToLower`: maps the rune-lowering function over the string.
The rune map (`unicode.ToLower`) is an argument. -/
def ToLower (lower : Char → Char) (s : String) : String :=
  String.mk (s.data.map lower)

/-- Substring search on character lists. -/
def containsChars : List Char → List Char → Bool
  | [], sub => sub.isEmpty
  | c :: s, sub => sub.isPrefixOf (c :: s) || containsChars s sub

/-- Go `strings.Contains`. -/
def Contains (s substr : String) : Bool :=
  containsChars s.data substr.data

/-- Go `strings.HasPrefix`. -/
def HasPrefix (s pre : String) : Bool :=
  pre.data.isPrefixOf s.data

/-- Go `strings.TrimPrefix`. -/
def TrimPrefix (s pre : String) : String :=
  if HasPrefix s pre then String.mk (s.data.drop pre.data.length) else s

/-- Go `strings.HasSuffix`. -/
def HasSuffix (s suf : String) : Bool :=
  suf.data.isSuffixOf s.data

/-! ## Platform classifier -/

/-- Source: `getPlatformType` (main.go 201-221). -/
def getPlatformType (lower : Char → Char) (url : String) : String :=
  let urlLower := ToLower lower url
  if Contains urlLower "youtube.com" || Contains urlLower "youtu.be" then
    "youtube"
  else if Contains urlLower "spotify.com" then
    "spotify"
  else if Contains urlLower "deezer.com" then
    "deezer"
  else if Contains urlLower "soundcloud.com" then
    "soundcloud"
  else if Contains urlLower "pornhub.com" || Contains urlLower "xvideos.com" then
    "adult"
  else
    "direct"

/-- The classifier as the specification words it: a fixed, ordered table of
domain fragments with the category of each row. -/
def platformTable : List (List String × String) :=
  [ (["youtube.com", "youtu.be"], "youtube"),
    (["spotify.com"], "spotify"),
    (["deezer.com"], "deezer"),
    (["soundcloud.com"], "soundcloud"),
    (["pornhub.com", "xvideos.com"], "adult") ]

/-- The specification's reading of the classifier: the category of the first
row of `platformTable` one of whose fragments occurs in the lower-cased URL,
and "direct" when no row matches. -/
def classifyByTable (urlLower : String) : String :=
  match platformTable.find? (fun row => row.1.any (fun frag => Contains urlLower frag)) with
  | some row => row.2
  | none => "direct"

/-- Every domain fragment of the table. -/
def allFragments : List String :=
  platformTable.flatMap (fun row => row.1)

/-- The six platform categories. -/
def platformCategories : List String :=
  ["youtube", "spotify", "deezer", "soundcloud", "adult", "direct"]

/-! ## Go `path/filepath` and `encoding/hex` helpers (Unix) -/

/-- The loop of Go `filepath.Ext`, run over the reversed path: walking back
from the end, stop with no extension at a path separator, and return the
suffix that starts at the first dot met. -/
def extLoop : List Char → List Char → List Char
  | [], _ => []
  | c :: rest, acc =>
    if c = '/' then []
    else if c = '.' then '.' :: acc
    else extLoop rest (c :: acc)

/-- Go `filepath.Ext`: the suffix beginning at the final dot in the final
slash-separated element of `path`; empty if there is no dot. -/
def Ext (path : String) : String :=
  String.mk (extLoop path.data.reverse [])

/-- Go `filepath.Base`: the last element of `path`; trailing slashes are
removed first; "." for the empty path and "/" for a path of slashes only. -/
def Base (path : String) : String :=
  if path = "" then "."
  else
    let stripped := path.data.reverse.dropWhile (fun c => c = '/')
    let last := (stripped.takeWhile (fun c => c ≠ '/')).reverse
    if last = [] then "/" else String.mk last

/-- One digit of the table "0123456789abcdef" of `encoding/hex`. -/
def hexDigit (n : Nat) : Char :=
  "0123456789abcdef".data.getD n '0'

/-- Go `hex.EncodeToString` over a list of bytes. -/
def EncodeToString (b : List Nat) : String :=
  String.mk (b.flatMap (fun x => [hexDigit (x % 256 / 16), hexDigit (x % 256 % 16)]))

/-! ## Data model -/

/-- Source: `Config` (main.go 22-28). -/
structure Config where
  BotToken : String
  BackupChannelID : Int
  APIKey : String
  Port : String
  CookiesFile : String

/-- Source: `ProcessRequest` (main.go 31-36). -/
structure ProcessRequest where
  URL : String
  CustomName : String
  UserID : Int
  ChatID : Int
deriving DecidableEq, Repr

/-- Source: `DownloadResult` (main.go 38-42). -/
structure DownloadResult where
  FilePath : String
  FileName : String
  FileSize : Int
deriving DecidableEq, Repr

/-! ## The outside world -/

/-- An observable step of a pipeline run, in the order performed.  `call`
marks the entry into one of the repository's own functions; `exec` records
the subprocess together with its outcome (`ok` is false on a non-zero exit). -/
inductive Event where
  | call (fn : String)
  | botSendMessage (chat : Int) (text : String)
  | botEditMessage (chat : Int) (messageID : Int) (text : String)
  | botDeleteMessage (chat : Int) (messageID : Int)
  | botSendDocumentFile (chat : Int) (path : String) (caption : String)
  | botSendDocumentID (chat : Int) (fileID : String)
  | exec (name : String) (args : List String) (ok : Bool) (output : String)
  | httpGet (url : String)
  | osCreate (path : String)
  | osRemove (path : String)
deriving DecidableEq, Repr

/-- A live chat message. -/
structure Message where
  chat : Int
  id : Int
  text : String
deriving DecidableEq, Repr

/-- The explicit state: the files on disk, the live chat messages, the
identifier the messaging platform gives the next message, and the events so
far. -/
structure World where
  files : List String
  messages : List Message
  nextID : Int
  trace : List Event
deriving DecidableEq, Repr

/-- The outcome of one `yt-dlp` subprocess: its exit error if any, its
combined output, and the files on disk when it exits. -/
structure ExecResult where
  err : Option String
  output : String
  files : List String

/-- The collaborators of a run.  Each field answers one library call whose
result the source inspects.  Calls whose result the source discards
(`editMessage`, `sendMessage`, the delete request, `os.Remove`) get their
nominal effect on the `World`. -/
structure Env where
  config : Config
  /-- The rune map `unicode.ToLower`. -/
  lower : Char → Char
  /-- the bytes `rand.Read` produces -/
  randBytes : List Nat
  /-- The clock: `time.Now().Format(time.RFC3339)`. -/
  now : String
  /-- error of the first `bot.Send` (the progress message), if any -/
  progressSend : Option String
  /-- The subprocess `exec.CommandContext(ctx, "yt-dlp", args...).CombinedOutput()`,
  given its arguments and the files on disk. -/
  ytDlp : List String → List String → ExecResult
  /-- The call `filepath.Glob(pattern)`, given the files on disk. -/
  glob : List String → String → Except String (List String)
  /-- size `os.Stat` reports for an existing file -/
  fileSize : String → Int
  /-- The calls `http.NewRequestWithContext` and `client.Do`: an error or the
  status code of the response. -/
  httpGet : String → Except String Nat
  /-- error of `os.Create`, if any -/
  osCreate : String → Option String
  /-- The call `io.Copy(file, resp.Body)`: an error or the bytes written. -/
  ioCopy : Except String Int
  /-- The `bot.Send` of the backup document: an error, or the `Document.FileID`
  of the message sent (`none` when `sent.Document` is nil). -/
  backupSend : Except String (Option String)
  /-- error of the `bot.Send` of the document to the user, if any -/
  userSend : Option String

/-- Append an event to the trace. -/
def World.emit (w : World) (e : Event) : World :=
  { w with trace := w.trace ++ [e] }

/-- A message accepted by the messaging platform becomes live under the next
identifier. -/
def World.post (w : World) (chat : Int) (text : String) : World :=
  { w with messages := w.messages ++ [⟨chat, w.nextID, text⟩], nextID := w.nextID + 1 }

/-- Go `os.Stat`, as far as the source uses it: the size of an existing file. -/
def osStat (env : Env) (w : World) (path : String) : Except String Int :=
  if path ∈ w.files then .ok (env.fileSize path)
  else .error ("stat " ++ path ++ ": no such file or directory")

/-- Source: `sendMessage` (main.go 378-381). -/
def sendMessage (chatID : Int) (text : String) (w : World) : World :=
  (w.emit (.botSendMessage chatID text)).post chatID text

/-- Source: `editMessage` (main.go 383-386). -/
def editMessage (chatID : Int) (messageID : Int) (text : String) (w : World) : World :=
  let w := w.emit (.botEditMessage chatID messageID text)
  { w with messages := w.messages.map (fun m =>
      if m.chat = chatID ∧ m.id = messageID then { m with text := text } else m) }

/-- The request `bot.Request(tgbotapi.NewDeleteMessage(chatID, messageID))`. -/
def deleteMessage (chatID : Int) (messageID : Int) (w : World) : World :=
  let w := w.emit (.botDeleteMessage chatID messageID)
  { w with messages := w.messages.filter (fun m => ¬ (m.chat = chatID ∧ m.id = messageID)) }

/-- Go `os.Remove`. -/
def osRemove (path : String) (w : World) : World :=
  let w := w.emit (.osRemove path)
  { w with files := w.files.filter (fun f => f ≠ path) }

/-! ## Temp path generator -/

/-- Source: `generateTempPath` (main.go 371-376).  `filepath.Join("/tmp", name)`
is "/tmp/" followed by `name`: `name` starts with 32 hex digits and every
`ext` the source passes is free of slashes, so `filepath.Clean` changes
nothing. -/
def generateTempPath (env : Env) (ext : String) : String :=
  let b := (List.range 16).map (fun i => env.randBytes.getD i 0 % 256)
  let name := EncodeToString b ++ ext
  "/tmp/" ++ name

/-! ## Download strategies -/

/-- Run `yt-dlp` with `args`: the subprocess and its outcome are recorded and
the disk is what the subprocess leaves. -/
def runYtDlp (env : Env) (args : List String) (w : World) : ExecResult × World :=
  let r := env.ytDlp args w.files
  (r, { w.emit (.exec "yt-dlp" args r.err.isNone r.output) with files := r.files })

/-- Source: `downloadFromYouTube` (main.go 223-254). -/
def downloadFromYouTube (env : Env) (url customName : String) (w : World) :
    Except String DownloadResult × World :=
  let w := w.emit (.call "downloadFromYouTube")
  let filePath := generateTempPath env ".mp3"
  let args := ["--extract-audio", "--audio-format", "mp3",
    "--cookies", env.config.CookiesFile, "-o", filePath, url]
  let (r, w) := runYtDlp env args w
  match r.err with
  | some _ => (.error ("yt-dlp failed: " ++ r.output), w)
  | none =>
    let fileName := customName
    let fileName := if fileName = "" then Base filePath else fileName
    match osStat env w filePath with
    | .error e => (.error e, w)
    | .ok size => (.ok { FilePath := filePath, FileName := fileName, FileSize := size }, w)

/-- Source: `downloadWithYtDlp` (main.go 256-298). -/
def downloadWithYtDlp (env : Env) (url customName platform : String) (w : World) :
    Except String DownloadResult × World :=
  let w := w.emit (.call "downloadWithYtDlp")
  let filePath := generateTempPath env ""
  let args := ["--cookies", env.config.CookiesFile, "-f", "best", "-o", filePath, url]
  let args :=
    if platform = "spotify" ∨ platform = "deezer" ∨ platform = "soundcloud" then
      ["--extract-audio", "--audio-format", "mp3"] ++ args
    else args
  let (r, w) := runYtDlp env args w
  match r.err with
  | some _ => (.error ("yt-dlp failed: " ++ r.output), w)
  | none =>
    match env.glob w.files (filePath ++ "*") with
    | .error _ => (.error "downloaded file not found", w)
    | .ok [] => (.error "downloaded file not found", w)
    | .ok (actualFile :: _) =>
      let fileName := customName
      let fileName := if fileName = "" then Base actualFile else fileName
      match osStat env w actualFile with
      | .error e => (.error e, w)
      | .ok size => (.ok { FilePath := actualFile, FileName := fileName, FileSize := size }, w)

/-- Source: `downloadDirectFile` (main.go 300-348). -/
def downloadDirectFile (env : Env) (url customName : String) (w : World) :
    Except String DownloadResult × World :=
  let w := w.emit (.call "downloadDirectFile")
  let w := w.emit (.httpGet url)
  match env.httpGet url with
  | .error e => (.error e, w)
  | .ok status =>
    if status ≠ 200 then
      (.error ("download failed with status: " ++ toString status), w)
    else
      let ext := Ext url
      let ext := if ext = "" then ".bin" else ext
      let filePath := generateTempPath env ext
      match env.osCreate filePath with
      | some e => (.error e, w)
      | none =>
        let w := { w.emit (.osCreate filePath) with
          files := if filePath ∈ w.files then w.files else w.files ++ [filePath] }
        match env.ioCopy with
        | .error e => (.error e, w)
        | .ok written =>
          let fileName := customName
          let fileName :=
            if fileName = "" then
              let fileName := Base url
              if fileName = "" then "file" ++ ext else fileName
            else fileName
          (.ok { FilePath := filePath, FileName := fileName, FileSize := written }, w)

/-! ## Relay uploader -/

/-- Source: `uploadToTelegram` (main.go 350-369); the result is the returned
error, `none` for nil. -/
def uploadToTelegram (env : Env) (result : DownloadResult) (chatID : Int) (sourceURL : String)
    (w : World) : Option String × World :=
  let w := w.emit (.call "uploadToTelegram")
  let caption := "🔗 Source: " ++ sourceURL ++ "\n📅 " ++ env.now
  let w := w.emit (.botSendDocumentFile env.config.BackupChannelID result.FilePath caption)
  match env.backupSend with
  | .error e => (some ("backup upload failed: " ++ e), w)
  | .ok document =>
    let w := w.post env.config.BackupChannelID caption
    match document with
    | none => (some "no document in backup message", w)
    | some fileID =>
      let w := w.emit (.botSendDocumentID chatID fileID)
      match env.userSend with
      | some e => (some e, w)
      | none => (none, w.post chatID "")

/-! ## Request pipeline -/

/-- The text of the initial progress message. -/
def textDownloading : String := "🔄 در حال دانلود..."

/-- The prefix of the download error text. -/
def textDownloadError : String := "❌ خطا در دانلود: "

/-- The text of the progress message during the upload. -/
def textUploading : String := "📤 در حال آپلود..."

/-- The prefix of the upload error text. -/
def textUploadError : String := "❌ خطا در آپلود: "

/-- The text of the final success message. -/
def textSuccess : String := "✅ فایل با موفقیت آپلود شد!"

/-- The `switch platform` of `processFile` (main.go 170-177). -/
def selectDownload (env : Env) (req : ProcessRequest) (platform : String) (w : World) :
    Except String DownloadResult × World :=
  if platform = "youtube" then
    downloadFromYouTube env req.URL req.CustomName w
  else if platform = "spotify" ∨ platform = "deezer" ∨ platform = "soundcloud"
      ∨ platform = "adult" then
    downloadWithYtDlp env req.URL req.CustomName platform w
  else
    downloadDirectFile env req.URL req.CustomName w

/-- Source: `processFile` (main.go 145-199).  No modelled step panics, so the
deferred `recover` never fires and is left out. -/
def processFile (env : Env) (req : ProcessRequest) (w : World) : World :=
  let w := w.emit (.botSendMessage req.ChatID textDownloading)
  match env.progressSend with
  | some _ => w
  | none =>
    let progressMsgID := w.nextID
    let w := w.post req.ChatID textDownloading
    let platform := getPlatformType env.lower req.URL
    let (res, w) := selectDownload env req platform w
    match res with
    | .error err => editMessage req.ChatID progressMsgID (textDownloadError ++ err) w
    | .ok result =>
      let w := editMessage req.ChatID progressMsgID textUploading w
      let (uerr, w) := uploadToTelegram env result req.ChatID req.URL w
      match uerr with
      | some err => sendMessage req.ChatID (textUploadError ++ err) w
      | none =>
        let w := osRemove result.FilePath w
        let w := deleteMessage req.ChatID progressMsgID w
        sendMessage req.ChatID textSuccess w

/-! ## Observations of a run -/

/-- The world in which the download starts: the progress message is live. -/
def afterProgress (req : ProcessRequest) (w : World) : World :=
  (w.emit (.botSendMessage req.ChatID textDownloading)).post req.ChatID textDownloading

/-- The download step of the run of `processFile` on `req` from `w`: the
result of the selected strategy and the world it leaves. -/
def downloadStep (env : Env) (req : ProcessRequest) (w : World) :
    Except String DownloadResult × World :=
  selectDownload env req (getPlatformType env.lower req.URL) (afterProgress req w)

/-- The upload step of the run, reached with the Download Result `r`. -/
def uploadStep (env : Env) (req : ProcessRequest) (w : World) (r : DownloadResult) :
    Option String × World :=
  uploadToTelegram env r req.ChatID req.URL
    (editMessage req.ChatID w.nextID textUploading (downloadStep env req w).2)

/-- The events a run of `processFile` from `w` adds to the trace. -/
def runEvents (env : Env) (req : ProcessRequest) (w : World) : List Event :=
  (processFile env req w).trace.drop w.trace.length

/-- An event of the download strategies: the subprocess, the HTTP GET, the
creation of the temp file. -/
def Event.isOfDownload : Event → Bool
  | .exec _ _ _ _ => true
  | .httpGet _ => true
  | .osCreate _ => true
  | _ => false

/-- An edit of a chat message. -/
def Event.isEdit : Event → Bool
  | .botEditMessage _ _ _ => true
  | _ => false

/-- The entry into one of the three download strategies. -/
def Event.isStrategyCall : Event → Bool
  | .call fn => fn = "downloadFromYouTube" || fn = "downloadWithYtDlp" || fn = "downloadDirectFile"
  | _ => false

/-- A document sent through the bot, from a local file or by file ID. -/
def Event.isDocument : Event → Bool
  | .botSendDocumentFile _ _ _ => true
  | .botSendDocumentID _ _ => true
  | _ => false

/-- The strategy the specification assigns to a platform category. -/
def strategyFor (platform : String) : String :=
  if platform = "youtube" then "downloadFromYouTube"
  else if platform = "spotify" ∨ platform = "deezer" ∨ platform = "soundcloud"
      ∨ platform = "adult" then "downloadWithYtDlp"
  else "downloadDirectFile"

/-- The arguments `downloadWithYtDlp` passes to `yt-dlp` without audio
extraction. -/
def bestQualityArgs (env : Env) (url : String) : List String :=
  ["--cookies", env.config.CookiesFile, "-f", "best", "-o", generateTempPath env "", url]

/-- What a download strategy `name` running from `w` may do: chat messages and
message identifiers are untouched, the trace grows by the entry event and
events of the download only, and a failed subprocess is the returned error. -/
def DownloadFrame (name : String) (w : World) (out : Except String DownloadResult × World) :
    Prop :=
  out.2.messages = w.messages ∧ out.2.nextID = w.nextID
  ∧ ∃ evs, out.2.trace = w.trace ++ (Event.call name :: evs)
      ∧ (∀ e ∈ evs, e.isOfDownload = true)
      ∧ (∀ args o, Event.exec "yt-dlp" args false o ∈ evs →
          out.1 = .error ("yt-dlp failed: " ++ o))

/-- An event of the relay uploader: its entry and the documents it sends. -/
def Event.isOfUpload : Event → Bool
  | .call fn => fn = "uploadToTelegram"
  | .botSendDocumentFile _ _ _ => true
  | .botSendDocumentID _ _ => true
  | _ => false

/-- The cleanup events: the removal of a file and the deletion of a chat
message. -/
def Event.isCleanup : Event → Bool
  | .osRemove _ => true
  | .botDeleteMessage _ _ => true
  | _ => false

/-- The caption of the backup document. -/
def backupCaption (env : Env) (sourceURL : String) : String :=
  "🔗 Source: " ++ sourceURL ++ "\n📅 " ++ env.now

/-- The run of `processFile` on `req` from `w` relayed the file: the progress
message was sent, the download returned a result and the upload returned no
error. -/
def Succeeded (env : Env) (req : ProcessRequest) (w : World) : Prop :=
  env.progressSend = none
  ∧ ∃ r, (downloadStep env req w).1 = .ok r ∧ (uploadStep env req w r).1 = none

/-- The events of a run before anything follows the download: the progress
message, the entry into the strategy `name`, the strategy's own events. -/
def downloadPhase (req : ProcessRequest) (name : String) (devs : List Event) : List Event :=
  Event.botSendMessage req.ChatID textDownloading :: Event.call name :: devs

/-- A subprocess run. -/
def Event.isExec : Event → Bool
  | .exec _ _ _ _ => true
  | _ => false

/-- The arguments that request audio extraction. -/
def extractAudioArgs : List String :=
  ["--extract-audio", "--audio-format", "mp3"]

/-! ## HTTP boundary -/

/-- An inbound HTTP request, as far as the handlers read it: the method, the
value `r.Header.Get("Authorization")` (empty when the header is absent) and
the body. -/
structure Request where
  Method : String
  Authorization : String
  Body : String

/-- What a handler has produced: the response status (`none` until the header
is written), the response body, and the pipeline runs started with
`go processFile(req)`. -/
structure Response where
  status : Option Nat
  body : String
  started : List ProcessRequest
deriving DecidableEq, Repr

/-- Go `w.WriteHeader(code)`: the first status written stays. -/
def WriteHeader (code : Nat) (w : Response) : Response :=
  if w.status.isSome then w else { w with status := some code }

/-- Go `w.Write`: writes the status 200 first if none was written. -/
def Write (s : String) (w : Response) : Response :=
  let w := WriteHeader 200 w
  { w with body := w.body ++ s }

/-- Go `http.Error(w, msg, code)`. -/
def httpError (msg : String) (code : Nat) (w : Response) : Response :=
  Write (msg ++ "\n") (WriteHeader code w)

/-- Source: `processHandler` (main.go 122-143); `decode` is the JSON decoding
of the body into a `ProcessRequest`. -/
def processHandler (decode : String → Option ProcessRequest) (r : Request) (w : Response) :
    Response :=
  if r.Method ≠ "POST" then httpError "Method not allowed" 405 w
  else
    match decode r.Body with
    | none => httpError "Invalid request" 400 w
    | some req =>
      let w := WriteHeader 202 w
      let w := Write "\x7b\"message\":\"File processing started\",\"status\":\"processing\"\x7d\n" w
      { w with started := w.started ++ [req] }

/-- Source: `authMiddleware` (main.go 104-120). -/
def authMiddleware (config : Config) (next : Request → Response → Response)
    (r : Request) (w : Response) : Response :=
  let authHeader := r.Authorization
  if authHeader = "" ∨ ¬ HasPrefix authHeader "Bearer " then
    httpError "Unauthorized" 401 w
  else
    let token := TrimPrefix authHeader "Bearer "
    if token ≠ config.APIKey then
      httpError "Invalid API key" 401 w
    else
      next r w

/-! ## The URL path, as the specification names it -/

/-- The remainder of a URL after its first "://", if it has one. -/
def afterScheme : List Char → Option (List Char)
  | [] => none
  | c :: rest =>
    match c, rest with
    | ':', '/' :: '/' :: tail => some tail
    | _, _ => afterScheme rest

/-- The path component of a URL in the specification's sense (the generic
syntax scheme://authority/path?query#fragment): the fragment and the query are
cut off, then the scheme and the authority; a string with no "://" is all
path. -/
def urlPath (url : String) : String :=
  let s := (url.data.takeWhile (fun c => c ≠ '#')).takeWhile (fun c => c ≠ '?')
  match afterScheme s with
  | some rest => String.mk (rest.dropWhile (fun c => c ≠ '/'))
  | none => String.mk s

/-- The text after the last slash of a string (the whole string if it has no
slash). -/
def lastElement (s : String) : String :=
  String.mk (s.data.reverse.takeWhile (fun c => c ≠ '/')).reverse

/-- The last segment of the URL's path, in the specification's sense. -/
def lastPathSegment (url : String) : String :=
  lastElement (urlPath url)

/-! ## Concrete collaborators, for evaluating the model -/

/-- A configuration with every field set. -/
def demoConfig : Config :=
  { BotToken := "123:abc", BackupChannelID := -1001, APIKey := "s3cret", Port := "3000",
    CookiesFile := "/app/cookies.txt" }

/-- Collaborators under which every call succeeds: `yt-dlp` exits with status
zero and leaves the file named after "-o" on disk, the glob returns the files
that extend the pattern's prefix, the HTTP status is 200. -/
def demoEnv : Env :=
  { config := demoConfig
    lower := Char.toLower
    randBytes := [0, 1, 2, 3, 4, 5, 6, 7, 8, 9, 10, 11, 12, 13, 14, 255]
    now := "2024-05-01T10:00:00Z"
    progressSend := none
    ytDlp := fun args files =>
      { err := none, output := "[download] 100%", files := files ++ [args.getD (args.length - 2) ""] }
    glob := fun files pattern =>
      .ok (files.filter (fun f => (pattern.data.take (pattern.data.length - 1)).isPrefixOf f.data))
    fileSize := fun _ => 4096
    httpGet := fun _ => .ok 200
    osCreate := fun _ => none
    ioCopy := .ok 4096
    backupSend := .ok (some "BQACAgQAAx0")
    userSend := none }

/-- Collaborators as `demoEnv`, except that `yt-dlp` exits non-zero. -/
def failingEnv : Env :=
  { demoEnv with
    ytDlp := fun _ files =>
      { err := some "exit status 1", output := "ERROR: Unsupported URL", files := files } }

/-- An empty disk and an empty chat. -/
def demoWorld : World :=
  { files := [], messages := [], nextID := 1, trace := [] }

/-- A request handler's fresh response. -/
def freshResponse : Response :=
  { status := none, body := "", started := [] }

/-- A JSON decoder stub that accepts every body. -/
def demoDecode (_ : String) : Option ProcessRequest :=
  some { URL := "https://youtu.be/x", CustomName := "", UserID := 1, ChatID := 100 }

/-! ## Theorems -/

theorem containsChars_iff_infix (s sub : List Char) :
    containsChars s sub = true ↔ sub <:+: s := by
  induction s with
  | nil =>
    cases sub <;> simp [containsChars]
  | cons c s ih =>
    simp only [containsChars, Bool.or_eq_true, ih, List.isPrefixOf_iff_prefix]
    exact (List.infix_cons_iff).symm

/-- The model of `strings.Contains` decides the substring relation. -/
theorem Contains_iff_infix (s sub : String) :
    Contains s sub = true ↔ sub.data <:+: s.data :=
  containsChars_iff_infix s.data sub.data

/-- C1: `getPlatformType` is the first-match lookup in the fragment table over
the lower-cased URL, returns "direct" exactly when no fragment is a substring of
the lower-cased URL, and always returns one of the six categories. -/
theorem getPlatformType_first_match (lower : Char → Char) (u : String) :
    getPlatformType lower u = classifyByTable (ToLower lower u)
    ∧ (getPlatformType lower u = "direct" ↔
        ∀ frag ∈ allFragments, ¬ (frag.data <:+: (ToLower lower u).data))
    ∧ getPlatformType lower u ∈ platformCategories := by
  simp only [← Contains_iff_infix]
  simp only [getPlatformType, classifyByTable, platformTable, allFragments, platformCategories,
    List.find?, List.any, List.flatMap, List.flatten, List.map, List.append, List.mem_cons,
    List.cons_append, List.nil_append, List.mem_singleton, forall_eq_or_imp, forall_eq,
    List.not_mem_nil, Bool.or_false, Bool.not_eq_true, IsEmpty.forall_iff, implies_true,
    and_true]
  generalize Contains (ToLower lower u) "youtube.com" = b1
  generalize Contains (ToLower lower u) "youtu.be" = b2
  generalize Contains (ToLower lower u) "spotify.com" = b3
  generalize Contains (ToLower lower u) "deezer.com" = b4
  generalize Contains (ToLower lower u) "soundcloud.com" = b5
  generalize Contains (ToLower lower u) "pornhub.com" = b6
  generalize Contains (ToLower lower u) "xvideos.com" = b7
  cases b1 <;> cases b2 <;> simp
  cases b3 <;> simp
  cases b4 <;> simp
  cases b5 <;> simp
  cases b6 <;> cases b7 <;> simp

/-! ### HTTP boundary -/

theorem hasPrefix_trimPrefix_iff (h pre k : String) :
    (HasPrefix h pre = true ∧ TrimPrefix h pre = k) ↔ h = pre ++ k := by
  constructor
  · rintro ⟨hp, ht⟩
    have hpre : pre.data <+: h.data := List.isPrefixOf_iff_prefix.mp hp
    obtain ⟨t, ht'⟩ := hpre
    simp only [TrimPrefix, hp, if_true] at ht
    apply String.ext
    rw [String.data_append, ← ht, ← ht']
    simp
  · intro hk
    subst hk
    have hp : HasPrefix (pre ++ k) pre = true := by
      simp [HasPrefix, String.data_append]
    refine ⟨hp, ?_⟩
    simp only [TrimPrefix, hp, if_true]
    apply String.ext
    simp [String.data_append]

theorem authMiddleware_accept (config : Config) (next : Request → Response → Response)
    (r : Request) (w : Response) (h : r.Authorization = "Bearer " ++ config.APIKey) :
    authMiddleware config next r w = next r w := by
  obtain ⟨hp, ht⟩ := (hasPrefix_trimPrefix_iff r.Authorization "Bearer " config.APIKey).mpr h
  have hne : r.Authorization ≠ "" := by
    intro h0
    rw [h0] at hp
    exact absurd hp (by decide)
  simp [authMiddleware, hp, hne, ht]

theorem authMiddleware_reject (config : Config) (next : Request → Response → Response)
    (r : Request) (w : Response) (h : r.Authorization ≠ "Bearer " ++ config.APIKey) :
    authMiddleware config next r w =
      httpError (if r.Authorization = "" ∨ ¬ HasPrefix r.Authorization "Bearer " = true
        then "Unauthorized" else "Invalid API key") 401 w := by
  have key := hasPrefix_trimPrefix_iff r.Authorization "Bearer " config.APIKey
  unfold authMiddleware
  by_cases h1 : r.Authorization = "" ∨ ¬ HasPrefix r.Authorization "Bearer " = true
  · simp only [h1, if_true]
  · have hp : HasPrefix r.Authorization "Bearer " = true := by
      by_contra hc
      exact h1 (Or.inr hc)
    have ht : TrimPrefix r.Authorization "Bearer " ≠ config.APIKey :=
      fun ht => h (key.mp ⟨hp, ht⟩)
    simp only [h1, if_false, ht, ne_eq, not_false_eq_true, if_true]

theorem httpError_fresh (msg : String) (code : Nat) (w : Response) :
    (w.status = none → (httpError msg code w).status = some code)
    ∧ (httpError msg code w).started = w.started := by
  constructor
  · intro h
    simp [httpError, Write, WriteHeader, h]
  · simp only [httpError, Write, WriteHeader]
    split_ifs <;> rfl

/-- C2: `authMiddleware` hands the request to the wrapped handler only when the
Authorization header is exactly "Bearer " followed by the configured key.  For
every other header value the outcome does not depend on the wrapped handler
(it is not invoked), a fresh response gets status 401, and no pipeline run is
started. -/
theorem authMiddleware_only_bearer_key (config : Config)
    (next : Request → Response → Response) (r : Request) (w : Response) :
    (r.Authorization = "Bearer " ++ config.APIKey →
        authMiddleware config next r w = next r w)
    ∧ (r.Authorization ≠ "Bearer " ++ config.APIKey →
        (∀ other : Request → Response → Response,
            authMiddleware config other r w = authMiddleware config next r w)
        ∧ (w.status = none → (authMiddleware config next r w).status = some 401)
        ∧ (authMiddleware config next r w).started = w.started) := by
  constructor
  · exact authMiddleware_accept config next r w
  · intro h
    rw [authMiddleware_reject config next r w h]
    refine ⟨fun other => authMiddleware_reject config other r w h, ?_, ?_⟩
    · exact (httpError_fresh _ _ w).1
    · exact (httpError_fresh _ _ w).2

/-- C2 at a concrete request: a wrong token before `processHandler` gives
status 401 and starts no pipeline run. -/
theorem authMiddleware_only_bearer_key_witness :
    (authMiddleware demoConfig (processHandler demoDecode)
        { Method := "POST", Authorization := "Bearer s3cres", Body := "" } freshResponse).status
      = some 401
    ∧ (authMiddleware demoConfig (processHandler demoDecode)
        { Method := "POST", Authorization := "Bearer s3cres", Body := "" } freshResponse).started
      = [] :=
  ⟨((authMiddleware_only_bearer_key demoConfig (processHandler demoDecode)
      { Method := "POST", Authorization := "Bearer s3cres", Body := "" } freshResponse).2
      (by decide)).2.1 rfl,
   ((authMiddleware_only_bearer_key demoConfig (processHandler demoDecode)
      { Method := "POST", Authorization := "Bearer s3cres", Body := "" } freshResponse).2
      (by decide)).2.2⟩

/-! ### Classification by single fragments -/

/-- C8 as stated fails: a URL that contains "spotify.com" and also "youtube.com"
is classified youtube, not spotify. -/
theorem getPlatformType_spotify_shadowed :
    Contains (ToLower Char.toLower "https://youtube.com/redirect?q=https://open.spotify.com/track/1")
        "spotify.com" = true
    ∧ getPlatformType Char.toLower "https://youtube.com/redirect?q=https://open.spotify.com/track/1"
        = "youtube"
    ∧ getPlatformType Char.toLower "https://youtube.com/redirect?q=https://open.spotify.com/track/1"
        ≠ "spotify" := by
  decide

/-- C8 amended: a fragment yields its category when no fragment of an earlier
row of the table occurs in the lower-cased URL; the youtube fragments need no
such condition. -/
theorem getPlatformType_by_fragment (lower : Char → Char) (u : String) :
    ((Contains (ToLower lower u) "youtube.com" = true ∨ Contains (ToLower lower u) "youtu.be" = true) →
        getPlatformType lower u = "youtube")
    ∧ (Contains (ToLower lower u) "youtube.com" = false → Contains (ToLower lower u) "youtu.be" = false →
        ((Contains (ToLower lower u) "spotify.com" = true → getPlatformType lower u = "spotify")
        ∧ (Contains (ToLower lower u) "spotify.com" = false →
            ((Contains (ToLower lower u) "deezer.com" = true → getPlatformType lower u = "deezer")
            ∧ (Contains (ToLower lower u) "deezer.com" = false →
                ((Contains (ToLower lower u) "soundcloud.com" = true →
                    getPlatformType lower u = "soundcloud")
                ∧ (Contains (ToLower lower u) "soundcloud.com" = false →
                    ((Contains (ToLower lower u) "pornhub.com" = true
                        ∨ Contains (ToLower lower u) "xvideos.com" = true) →
                      getPlatformType lower u = "adult")))))))) := by
  simp only [getPlatformType]
  generalize Contains (ToLower lower u) "youtube.com" = b1
  generalize Contains (ToLower lower u) "youtu.be" = b2
  generalize Contains (ToLower lower u) "spotify.com" = b3
  generalize Contains (ToLower lower u) "deezer.com" = b4
  generalize Contains (ToLower lower u) "soundcloud.com" = b5
  generalize Contains (ToLower lower u) "pornhub.com" = b6
  generalize Contains (ToLower lower u) "xvideos.com" = b7
  refine ⟨?_, ?_⟩
  · rintro (h | h) <;> simp [h]
  · intro h1 h2
    subst h1 h2
    refine ⟨fun h => by simp [h], fun h3 => ⟨fun h => by simp [h3, h], fun h4 =>
      ⟨fun h => by simp [h3, h4, h], fun h5 => ?_⟩⟩⟩
    rintro (h | h) <;> simp [h3, h4, h5, h]

/-- C8 amended, at a concrete URL that contains "spotify.com" and neither
youtube fragment. -/
theorem getPlatformType_by_fragment_witness :
    getPlatformType Char.toLower "https://open.Spotify.com/track/1" = "spotify" :=
  ((getPlatformType_by_fragment Char.toLower "https://open.Spotify.com/track/1").2
    (by decide) (by decide)).1 (by decide)

/-! ### Download strategies -/

/-- C5: with a non-empty custom name, a Download Result returned by any of the
three strategies carries exactly that name as its FileName. -/
theorem customName_reported_verbatim (env : Env) (url c platform : String) (w : World)
    (hc : c ≠ "") :
    (∀ r, (downloadFromYouTube env url c w).1 = .ok r → r.FileName = c)
    ∧ (∀ r, (downloadWithYtDlp env url c platform w).1 = .ok r → r.FileName = c)
    ∧ (∀ r, (downloadDirectFile env url c w).1 = .ok r → r.FileName = c) := by
  refine ⟨?_, ?_, ?_⟩
  · intro r h
    simp only [downloadFromYouTube, runYtDlp] at h
    split at h
    · cases h
    · split at h
      · cases h
      · simp only [Except.ok.injEq] at h
        rw [← h]
        simp [hc]
  · intro r h
    simp only [downloadWithYtDlp, runYtDlp] at h
    split at h
    · cases h
    · split at h
      · cases h
      · cases h
      · split at h
        · cases h
        · simp only [Except.ok.injEq] at h
          rw [← h]
          simp [hc]
  · intro r h
    simp only [downloadDirectFile] at h
    split at h
    · cases h
    · split at h
      · cases h
      · split at h
        · cases h
        · split at h
          · cases h
          · simp only [Except.ok.injEq] at h
            rw [← h]

/-- C5 at a concrete successful download with the custom name "song.mp3". -/
theorem customName_reported_verbatim_witness :
    (downloadFromYouTube demoEnv "https://youtu.be/x" "song.mp3" demoWorld).1
        = .ok ⟨"/tmp/000102030405060708090a0b0c0d0eff.mp3", "song.mp3", 4096⟩
    ∧ (⟨"/tmp/000102030405060708090a0b0c0d0eff.mp3", "song.mp3", 4096⟩ : DownloadResult).FileName
        = "song.mp3" :=
  ⟨rfl, (customName_reported_verbatim demoEnv "https://youtu.be/x" "song.mp3" "youtube" demoWorld
    (by decide)).1 _ rfl⟩

theorem extLoop_eq_nil_iff (l acc : List Char) :
    extLoop l acc = [] ↔ '.' ∉ l.takeWhile (fun c => c ≠ '/') := by
  induction l generalizing acc with
  | nil => simp [extLoop]
  | cons c rest ih =>
    by_cases h1 : c = '/'
    · simp [extLoop, h1]
    · by_cases h2 : c = '.'
      · simp [extLoop, h2]
      · have h3 : ¬ ('.' = c) := fun h => h2 h.symm
        simp [extLoop, h1, h2, h3, ih]

theorem extLoop_no_slash (l acc : List Char) (h : '/' ∉ acc) : '/' ∉ extLoop l acc := by
  induction l generalizing acc with
  | nil => simp [extLoop]
  | cons c rest ih =>
    by_cases h1 : c = '/'
    · simp [extLoop, h1]
    · by_cases h2 : c = '.'
      · simp [extLoop, h2, h]
      · have h3 : ¬ ('/' = c) := fun h => h1 h.symm
        simp only [extLoop, h1, h2, if_false]
        exact ih (c :: acc) (by simp [h, h3])

/-- The extension `filepath.Ext` returns is free of slashes: what
`generateTempPath` appends to the random name stays inside "/tmp". -/
theorem Ext_no_slash (path : String) : '/' ∉ (Ext path).data :=
  extLoop_no_slash path.data.reverse [] (by simp)

/-- The result of `filepath.Ext` is empty exactly when the text after the last
slash has no dot. -/
theorem Ext_eq_empty_iff (path : String) :
    Ext path = "" ↔ '.' ∉ (lastElement path).data := by
  have h := extLoop_eq_nil_iff path.data.reverse []
  simp only [Ext, lastElement, List.mem_reverse]
  rw [← h]
  constructor
  · intro h'
    exact congrArg String.data h'
  · intro h'
    exact String.ext h'

theorem takeWhile_append_of_stop (p : Char → Bool) (a b : List Char)
    (h : ∃ x ∈ a, p x = false) : (a ++ b).takeWhile p = a.takeWhile p := by
  induction a with
  | nil => simp at h
  | cons c a ih =>
    by_cases hc : p c = true
    · have h' : ∃ x ∈ a, p x = false := by
        obtain ⟨x, hx, hpx⟩ := h
        rcases List.mem_cons.mp hx with rfl | hx
        · rw [hc] at hpx; cases hpx
        · exact ⟨x, hx, hpx⟩
      simp [List.takeWhile, hc, ih h']
    · simp [List.takeWhile, hc]

theorem afterScheme_suffix (s rest : List Char) (h : afterScheme s = some rest) :
    rest <:+ s := by
  induction s with
  | nil => simp [afterScheme] at h
  | cons c t ih =>
    unfold afterScheme at h
    split at h
    · cases h
      exact ⟨[':', '/', '/'], rfl⟩
    · exact (ih h).trans (List.suffix_cons c t)

/-- For a URL with no query and no fragment whose path is not empty, the text
after the last slash of the whole URL is the last segment of its path. -/
theorem lastElement_eq_lastPathSegment (url : String)
    (hq : '?' ∉ url.data) (hf : '#' ∉ url.data) (hp : urlPath url ≠ "") :
    lastElement url = lastPathSegment url := by
  have h1 : url.data.takeWhile (fun c => decide (c ≠ '#')) = url.data := by
    rw [List.takeWhile_eq_self_iff]
    intro x hx
    have : x ≠ '#' := fun h => hf (h ▸ hx)
    simpa using this
  have h2 : url.data.takeWhile (fun c => decide (c ≠ '?')) = url.data := by
    rw [List.takeWhile_eq_self_iff]
    intro x hx
    have : x ≠ '?' := fun h => hq (h ▸ hx)
    simpa using this
  simp only [lastPathSegment, urlPath, h1, h2] at hp ⊢
  cases hs : afterScheme url.data with
  | none => simp [lastElement]
  | some rest =>
    simp only [hs] at hp ⊢
    have hsuf : rest.dropWhile (fun c => decide (c ≠ '/')) <:+ url.data :=
      (List.dropWhile_suffix _).trans (afterScheme_suffix _ _ hs)
    have hne : rest.dropWhile (fun c => decide (c ≠ '/')) ≠ [] := by
      intro h0
      exact hp (by rw [h0])
    obtain ⟨pre, hpre⟩ := hsuf
    have hhead : ∃ x ∈ (rest.dropWhile (fun c => decide (c ≠ '/'))).reverse,
        (fun c => decide (c ≠ '/')) x = false := by
      cases hd : rest.dropWhile (fun c => decide (c ≠ '/')) with
      | nil => exact absurd hd hne
      | cons x xs =>
        have := List.head_dropWhile_not (fun c => decide (c ≠ '/')) rest (by rw [hd]; simp)
        simp only [hd, List.head_cons] at this
        exact ⟨x, by simp, by simpa using this⟩
    simp only [lastElement]
    congr 2
    rw [← hpre, List.reverse_append]
    exact takeWhile_append_of_stop _ _ _ hhead

theorem Base_eq_lastElement (url : String) (hne : url ≠ "")
    (hs : HasSuffix url "/" = false) : Base url = lastElement url := by
  cases hrev : url.data.reverse with
  | nil =>
    exfalso
    apply hne
    apply String.ext
    simpa using hrev
  | cons c rest =>
    have hc : c ≠ '/' := by
      intro h
      subst h
      simp [HasSuffix, List.isSuffixOf, hrev] at hs
    simp [Base, lastElement, hne, hrev, List.dropWhile, List.takeWhile, hc]

/-- The fallback to the generic name in `downloadDirectFile` is unreachable:
`filepath.Base` never returns the empty string. -/
theorem Base_ne_empty (path : String) : Base path ≠ "" := by
  intro h
  unfold Base at h
  dsimp only at h
  split_ifs at h with h1 h2
  · exact absurd h (by decide)
  · exact absurd h (by decide)
  · exact h2 (congrArg String.data h)

theorem hasSuffix_generateTempPath (env : Env) (ext : String) :
    HasSuffix (generateTempPath env ext) ext = true := by
  simp only [HasSuffix, generateTempPath, List.isSuffixOf_iff_suffix, String.data_append]
  exact ⟨_, List.append_assoc _ _ _⟩

theorem downloadDirectFile_ok (env : Env) (url c : String) (w : World) (r : DownloadResult)
    (h : (downloadDirectFile env url c w).1 = .ok r) :
    r.FilePath = generateTempPath env (if Ext url = "" then ".bin" else Ext url)
    ∧ r.FileName = (if c = "" then Base url else c)
    ∧ r.FilePath ∈ (downloadDirectFile env url c w).2.files := by
  unfold downloadDirectFile at h ⊢
  dsimp only at h ⊢
  cases hst : env.httpGet url with
  | error e => simp [hst] at h
  | ok status =>
    simp only [hst] at h ⊢
    by_cases h200 : status ≠ 200
    · simp [h200] at h
    · simp only [if_neg h200] at h ⊢
      cases hcr : env.osCreate (generateTempPath env (if Ext url = "" then ".bin" else Ext url)) with
      | some e => simp [hcr] at h
      | none =>
        simp only [hcr] at h ⊢
        cases hcp : env.ioCopy with
        | error e => simp [hcp] at h
        | ok written =>
          simp only [hcp, Except.ok.injEq] at h ⊢
          subst h
          refine ⟨rfl, ?_, ?_⟩
          · by_cases hc : c = ""
            · simp [hc, Base_ne_empty]
            · simp [hc]
          · dsimp only
            generalize generateTempPath env (if Ext url = "" then ".bin" else Ext url) = fp
            split_ifs with hmem
            · exact hmem
            · simp

/-- C6 as stated fails: the path of "https://example.com/download?file=report.pdf"
is "/download", with no extension, and the temp file ends in ".pdf"; the path
of "https://example.com" is empty and the temp file ends in ".com". -/
theorem directFile_extension_not_from_path :
    (urlPath "https://example.com/download?file=report.pdf" = "/download"
      ∧ Ext (urlPath "https://example.com/download?file=report.pdf") = ""
      ∧ (downloadDirectFile demoEnv "https://example.com/download?file=report.pdf" "" demoWorld).1
          = .ok ⟨"/tmp/000102030405060708090a0b0c0d0eff.pdf", "download?file=report.pdf", 4096⟩
      ∧ HasSuffix "/tmp/000102030405060708090a0b0c0d0eff.pdf" ".bin" = false)
    ∧ (urlPath "https://example.com" = ""
      ∧ (downloadDirectFile demoEnv "https://example.com" "" demoWorld).1
          = .ok ⟨"/tmp/000102030405060708090a0b0c0d0eff.com", "example.com", 4096⟩
      ∧ HasSuffix "/tmp/000102030405060708090a0b0c0d0eff.com" ".bin" = false) := by
  refine ⟨⟨by decide, by decide, rfl, by decide⟩, by decide, rfl, by decide⟩

/-- C6 amended: a successful `downloadDirectFile` creates a temp file whose path
ends in `filepath.Ext` of the whole URL string (host name and query string
included), and in ".bin" when that is empty, which is the case exactly when
the text after the last slash of the URL string has no dot; so it ends in
".bin" for a URL with a non-empty path, no query string and no fragment
whose path has no extension. -/
theorem directFile_extension_from_url_string (env : Env) (url c : String) (w : World)
    (r : DownloadResult) (h : (downloadDirectFile env url c w).1 = .ok r) :
    r.FilePath = generateTempPath env (if Ext url = "" then ".bin" else Ext url)
    ∧ HasSuffix r.FilePath (if Ext url = "" then ".bin" else Ext url) = true
    ∧ r.FilePath ∈ (downloadDirectFile env url c w).2.files
    ∧ (Ext url = "" ↔ '.' ∉ (lastElement url).data)
    ∧ ('.' ∉ (lastElement url).data → HasSuffix r.FilePath ".bin" = true)
    ∧ ('?' ∉ url.data → '#' ∉ url.data → urlPath url ≠ "" → Ext (urlPath url) = "" →
        HasSuffix r.FilePath ".bin" = true) := by
  obtain ⟨hp, _, hf⟩ := downloadDirectFile_ok env url c w r h
  have hbin : Ext url = "" → HasSuffix r.FilePath ".bin" = true := by
    intro he
    rw [hp, if_pos he]
    exact hasSuffix_generateTempPath env ".bin"
  refine ⟨hp, ?_, hf, Ext_eq_empty_iff url, ?_, ?_⟩
  · rw [hp]
    exact hasSuffix_generateTempPath env _
  · intro hd
    exact hbin ((Ext_eq_empty_iff url).mpr hd)
  · intro hq hfr hpath hext
    apply hbin
    rw [Ext_eq_empty_iff] at hext ⊢
    rw [lastElement_eq_lastPathSegment url hq hfr hpath]
    exact hext

/-- C6 amended, at a URL whose last element has no dot. -/
theorem directFile_extension_from_url_string_witness :
    (downloadDirectFile demoEnv "https://example.com/download" "" demoWorld).1
        = .ok ⟨"/tmp/000102030405060708090a0b0c0d0eff.bin", "download", 4096⟩
    ∧ HasSuffix "/tmp/000102030405060708090a0b0c0d0eff.bin" ".bin" = true :=
  ⟨rfl, (directFile_extension_from_url_string demoEnv "https://example.com/download" ""
    demoWorld _ rfl).2.2.2.2.1 (by decide)⟩

/-- C7 as stated fails: the last path segment of
"https://example.com/a.zip?next=/home" is "a.zip", and the reported FileName
is "home". -/
theorem directFile_name_not_path_segment :
    lastPathSegment "https://example.com/a.zip?next=/home" = "a.zip"
    ∧ (downloadDirectFile demoEnv "https://example.com/a.zip?next=/home" "" demoWorld).1
        = .ok ⟨"/tmp/000102030405060708090a0b0c0d0eff.bin", "home", 4096⟩ := by
  refine ⟨by decide, rfl⟩

/-- C7 amended: with an empty custom name and a URL that does not end in a
slash, a successful `downloadDirectFile` reports as FileName the text after the
last slash of the whole URL string (query string and fragment included); for a
URL with a non-empty path, no query string and no fragment this is the last
segment of its path. -/
theorem directFile_default_name (env : Env) (url : String) (w : World) (r : DownloadResult)
    (h : (downloadDirectFile env url "" w).1 = .ok r)
    (hne : url ≠ "") (hs : HasSuffix url "/" = false) :
    r.FileName = lastElement url
    ∧ ('?' ∉ url.data → '#' ∉ url.data → urlPath url ≠ "" →
        r.FileName = lastPathSegment url) := by
  obtain ⟨_, hn, _⟩ := downloadDirectFile_ok env url "" w r h
  have h1 : r.FileName = lastElement url := by
    rw [hn, if_pos rfl]
    exact Base_eq_lastElement url hne hs
  refine ⟨h1, fun hq hf hp => ?_⟩
  rw [h1]
  exact lastElement_eq_lastPathSegment url hq hf hp

/-- C7 amended, at a URL with a path and no query string. -/
theorem directFile_default_name_witness :
    (downloadDirectFile demoEnv "https://example.com/files/a.zip" "" demoWorld).1
        = .ok ⟨"/tmp/000102030405060708090a0b0c0d0eff.zip", "a.zip", 4096⟩
    ∧ (⟨"/tmp/000102030405060708090a0b0c0d0eff.zip", "a.zip", 4096⟩ : DownloadResult).FileName
        = lastPathSegment "https://example.com/files/a.zip" :=
  ⟨rfl, (directFile_default_name demoEnv "https://example.com/files/a.zip" demoWorld _ rfl
    (by decide) (by decide)).2 (by decide) (by decide) (by decide)⟩

/-- The generic name is not reached for a URL that ends in a slash: the
reported FileName of "https://example.com/files/" is "files". -/
theorem directFile_trailing_slash_name :
    lastPathSegment "https://example.com/files/" = ""
    ∧ (downloadDirectFile demoEnv "https://example.com/files/" "" demoWorld).1
        = .ok ⟨"/tmp/000102030405060708090a0b0c0d0eff.bin", "files", 4096⟩ := by
  refine ⟨by decide, rfl⟩

/-! ### Frame of the download strategies -/

theorem downloadFromYouTube_frame (env : Env) (url c : String) (w : World) :
    DownloadFrame "downloadFromYouTube" w (downloadFromYouTube env url c w) := by
  unfold DownloadFrame downloadFromYouTube runYtDlp
  simp only [World.emit]
  generalize env.ytDlp _ w.files = r
  obtain ⟨err, out, files⟩ := r
  cases err with
  | some e => simp [Event.isOfDownload]
  | none =>
    dsimp only
    split <;> simp [Event.isOfDownload]

theorem downloadWithYtDlp_frame (env : Env) (url c platform : String) (w : World) :
    DownloadFrame "downloadWithYtDlp" w (downloadWithYtDlp env url c platform w) := by
  unfold DownloadFrame downloadWithYtDlp runYtDlp
  simp only [World.emit]
  generalize env.ytDlp _ w.files = r
  obtain ⟨err, out, files⟩ := r
  cases err with
  | some e => simp [Event.isOfDownload]
  | none =>
    dsimp only
    split
    · simp [Event.isOfDownload]
    · simp [Event.isOfDownload]
    · split <;> simp [Event.isOfDownload]

theorem downloadDirectFile_frame (env : Env) (url c : String) (w : World) :
    DownloadFrame "downloadDirectFile" w (downloadDirectFile env url c w) := by
  unfold DownloadFrame downloadDirectFile
  simp only [World.emit]
  split
  · simp [Event.isOfDownload]
  · split
    · simp [Event.isOfDownload]
    · split
      · simp [Event.isOfDownload]
      · split <;> simp [Event.isOfDownload]

theorem selectDownload_frame (env : Env) (req : ProcessRequest) (platform : String) (w : World) :
    DownloadFrame (strategyFor platform) w (selectDownload env req platform w) := by
  unfold selectDownload strategyFor
  split_ifs
  · exact downloadFromYouTube_frame env req.URL req.CustomName w
  · exact downloadWithYtDlp_frame env req.URL req.CustomName platform w
  · exact downloadDirectFile_frame env req.URL req.CustomName w

/-! ### Relay uploader -/

/-- C10: `uploadToTelegram` first sends the local file as a document to the
backup channel.  If that send fails or its message carries no document, an
error is returned and nothing else is sent.  Otherwise exactly one more
document is sent, to the destination chat and by the file ID of the backup
message, and the returned error is the error of that second send. -/
theorem uploadToTelegram_backup_then_forward (env : Env) (result : DownloadResult)
    (chatID : Int) (sourceURL : String) (w : World) :
    (∀ fileID, env.backupSend = .ok (some fileID) →
        (uploadToTelegram env result chatID sourceURL w).2.trace = w.trace ++
          [Event.call "uploadToTelegram",
           Event.botSendDocumentFile env.config.BackupChannelID result.FilePath
             (backupCaption env sourceURL),
           Event.botSendDocumentID chatID fileID]
        ∧ (uploadToTelegram env result chatID sourceURL w).1 = env.userSend)
    ∧ ((∀ fileID, env.backupSend ≠ .ok (some fileID)) →
        (uploadToTelegram env result chatID sourceURL w).2.trace = w.trace ++
          [Event.call "uploadToTelegram",
           Event.botSendDocumentFile env.config.BackupChannelID result.FilePath
             (backupCaption env sourceURL)]
        ∧ (uploadToTelegram env result chatID sourceURL w).1 ≠ none)
    ∧ (uploadToTelegram env result chatID sourceURL w).2.files = w.files := by
  unfold uploadToTelegram backupCaption
  simp only [World.emit, World.post]
  cases hb : env.backupSend with
  | error e => simp
  | ok document =>
    cases document with
    | none => simp
    | some fileID =>
      cases hu : env.userSend <;> simp

/-- C10 at concrete collaborators: the backup message carries the file ID
"BQACAgQAAx0" and the same ID is sent to chat 100. -/
theorem uploadToTelegram_backup_then_forward_witness :
    (uploadToTelegram demoEnv ⟨"/tmp/a.mp3", "a.mp3", 4096⟩ 100 "https://youtu.be/x" demoWorld).2.trace
        = [Event.call "uploadToTelegram",
           Event.botSendDocumentFile (-1001) "/tmp/a.mp3"
             (backupCaption demoEnv "https://youtu.be/x"),
           Event.botSendDocumentID 100 "BQACAgQAAx0"]
    ∧ (uploadToTelegram demoEnv ⟨"/tmp/a.mp3", "a.mp3", 4096⟩ 100 "https://youtu.be/x" demoWorld).1
        = none :=
  (uploadToTelegram_backup_then_forward demoEnv ⟨"/tmp/a.mp3", "a.mp3", 4096⟩ 100
    "https://youtu.be/x" demoWorld).1 "BQACAgQAAx0" rfl

theorem uploadToTelegram_frame (env : Env) (result : DownloadResult) (chatID : Int)
    (sourceURL : String) (w : World) :
    (uploadToTelegram env result chatID sourceURL w).2.files = w.files
    ∧ w.nextID ≤ (uploadToTelegram env result chatID sourceURL w).2.nextID
    ∧ ∃ evs, (uploadToTelegram env result chatID sourceURL w).2.trace = w.trace ++ evs
        ∧ ∀ e ∈ evs, e.isOfUpload = true := by
  unfold uploadToTelegram
  simp only [World.emit, World.post]
  cases hb : env.backupSend with
  | error e => simp [Event.isOfUpload]
  | ok document =>
    cases document with
    | none => simp [Event.isOfUpload]
    | some fileID =>
      cases hu : env.userSend with
      | none =>
        refine ⟨rfl, ?_, ?_⟩
        · simp only; omega
        · simp [Event.isOfUpload]
      | some e => simp [Event.isOfUpload]

/-! ### Request pipeline -/

theorem processFile_send_failed (env : Env) (req : ProcessRequest) (w : World) (e : String)
    (hs : env.progressSend = some e) :
    processFile env req w = w.emit (.botSendMessage req.ChatID textDownloading) := by
  simp [processFile, hs]

theorem processFile_download_failed (env : Env) (req : ProcessRequest) (w : World) (e : String)
    (hs : env.progressSend = none) (hd : (downloadStep env req w).1 = .error e) :
    processFile env req w
      = editMessage req.ChatID w.nextID (textDownloadError ++ e) (downloadStep env req w).2 := by
  unfold downloadStep afterProgress at hd ⊢
  simp only [processFile, hs]
  rcases hsel : selectDownload env req (getPlatformType env.lower req.URL)
    ((w.emit (Event.botSendMessage req.ChatID textDownloading)).post req.ChatID textDownloading)
    with ⟨res, w1⟩
  rw [hsel] at hd
  simp only at hd
  subst hd
  rfl

theorem processFile_upload_failed (env : Env) (req : ProcessRequest) (w : World)
    (r : DownloadResult) (e : String)
    (hs : env.progressSend = none) (hd : (downloadStep env req w).1 = .ok r)
    (hu : (uploadStep env req w r).1 = some e) :
    processFile env req w
      = sendMessage req.ChatID (textUploadError ++ e) (uploadStep env req w r).2 := by
  unfold uploadStep downloadStep afterProgress at *
  simp only [processFile, hs]
  rcases hsel : selectDownload env req (getPlatformType env.lower req.URL)
    ((w.emit (Event.botSendMessage req.ChatID textDownloading)).post req.ChatID textDownloading)
    with ⟨res, w1⟩
  rw [hsel] at hd hu
  simp only at hd hu
  subst hd
  have hid : (w.emit (Event.botSendMessage req.ChatID textDownloading)).nextID = w.nextID := rfl
  simp only [hid]
  rcases hup : uploadToTelegram env r req.ChatID req.URL
    (editMessage req.ChatID w.nextID textUploading w1) with ⟨uerr, w2⟩
  rw [hup] at hu
  simp only at hu
  subst hu
  rfl

theorem processFile_done (env : Env) (req : ProcessRequest) (w : World) (r : DownloadResult)
    (hs : env.progressSend = none) (hd : (downloadStep env req w).1 = .ok r)
    (hu : (uploadStep env req w r).1 = none) :
    processFile env req w
      = sendMessage req.ChatID textSuccess
          (deleteMessage req.ChatID w.nextID (osRemove r.FilePath (uploadStep env req w r).2)) := by
  unfold uploadStep downloadStep afterProgress at *
  simp only [processFile, hs]
  rcases hsel : selectDownload env req (getPlatformType env.lower req.URL)
    ((w.emit (Event.botSendMessage req.ChatID textDownloading)).post req.ChatID textDownloading)
    with ⟨res, w1⟩
  rw [hsel] at hd hu
  simp only at hd hu
  subst hd
  have hid : (w.emit (Event.botSendMessage req.ChatID textDownloading)).nextID = w.nextID := rfl
  simp only [hid]
  rcases hup : uploadToTelegram env r req.ChatID req.URL
    (editMessage req.ChatID w.nextID textUploading w1) with ⟨uerr, w2⟩
  rw [hup] at hu
  simp only at hu
  subst hu
  rfl

theorem downloadStep_shape (env : Env) (req : ProcessRequest) (w : World) :
    (downloadStep env req w).2.messages
        = w.messages ++ [⟨req.ChatID, w.nextID, textDownloading⟩]
    ∧ (downloadStep env req w).2.nextID = w.nextID + 1
    ∧ ∃ devs, (downloadStep env req w).2.trace = w.trace ++
          (Event.botSendMessage req.ChatID textDownloading
            :: Event.call (strategyFor (getPlatformType env.lower req.URL)) :: devs)
        ∧ (∀ e ∈ devs, e.isOfDownload = true)
        ∧ (∀ args o, Event.exec "yt-dlp" args false o ∈ devs →
            (downloadStep env req w).1 = .error ("yt-dlp failed: " ++ o)) := by
  obtain ⟨hm, hn, devs, ht, hall, hex⟩ :=
    selectDownload_frame env req (getPlatformType env.lower req.URL) (afterProgress req w)
  refine ⟨?_, ?_, devs, ?_, hall, hex⟩
  · rw [downloadStep, hm]; rfl
  · rw [downloadStep, hn]; rfl
  · rw [downloadStep, ht]
    simp [afterProgress, World.emit, World.post]

theorem not_mem_of_download (devs : List Event) (hall : ∀ e ∈ devs, e.isOfDownload = true)
    (e : Event) (he : e.isOfDownload = false) : e ∉ devs := by
  intro hmem
  rw [hall e hmem] at he
  cases he

theorem runEvents_download_failed (env : Env) (req : ProcessRequest) (w : World) (e : String)
    (hs : env.progressSend = none) (hd : (downloadStep env req w).1 = .error e) :
    ∃ devs, runEvents env req w =
        Event.botSendMessage req.ChatID textDownloading
          :: Event.call (strategyFor (getPlatformType env.lower req.URL))
          :: (devs ++ [Event.botEditMessage req.ChatID w.nextID (textDownloadError ++ e)])
      ∧ (∀ ev ∈ devs, ev.isOfDownload = true)
      ∧ (∀ args o, Event.exec "yt-dlp" args false o ∈ devs → e = "yt-dlp failed: " ++ o) := by
  obtain ⟨_, _, devs, ht, hall, hex⟩ := downloadStep_shape env req w
  refine ⟨devs, ?_, hall, ?_⟩
  · rw [runEvents, processFile_download_failed env req w e hs hd]
    simp [editMessage, World.emit, ht]
  · intro args o hmem
    have := hex args o hmem
    rw [hd] at this
    exact Except.error.inj this

/-- C3: when the selected download strategy returns an error, the run edits the
progress message exactly once, to a text that contains the error text (and the
output of a failed `yt-dlp` subprocess), and that edit is its last step: no
call of `uploadToTelegram`, no document sent, no message deleted, no success
message. -/
theorem processFile_download_error (env : Env) (req : ProcessRequest) (w : World) (e : String)
    (hs : env.progressSend = none) (hd : (downloadStep env req w).1 = .error e) :
    (runEvents env req w).filter Event.isEdit
        = [Event.botEditMessage req.ChatID w.nextID (textDownloadError ++ e)]
    ∧ (runEvents env req w).getLast?
        = some (Event.botEditMessage req.ChatID w.nextID (textDownloadError ++ e))
    ∧ e.data <:+: (textDownloadError ++ e).data
    ∧ (∀ args o, Event.exec "yt-dlp" args false o ∈ runEvents env req w →
        o.data <:+: (textDownloadError ++ e).data)
    ∧ Event.call "uploadToTelegram" ∉ runEvents env req w
    ∧ (∀ ev ∈ runEvents env req w, ev.isDocument = false)
    ∧ (∀ c m, Event.botDeleteMessage c m ∉ runEvents env req w)
    ∧ (∀ c, Event.botSendMessage c textSuccess ∉ runEvents env req w) := by
  obtain ⟨devs, hrun, hall, hex⟩ := runEvents_download_failed env req w e hs hd
  have hnot := not_mem_of_download devs hall
  rw [hrun]
  refine ⟨?_, ?_, ?_, ?_, ?_, ?_, ?_, ?_⟩
  · have hfil : devs.filter Event.isEdit = [] := by
      rw [List.filter_eq_nil_iff]
      intro ev hev
      have := hall ev hev
      cases ev <;> simp_all [Event.isOfDownload, Event.isEdit]
    simp [List.filter_cons, List.filter_append, Event.isEdit, hfil]
  · rw [show Event.botSendMessage req.ChatID textDownloading
        :: Event.call (strategyFor (getPlatformType env.lower req.URL))
        :: (devs ++ [Event.botEditMessage req.ChatID w.nextID (textDownloadError ++ e)])
      = (Event.botSendMessage req.ChatID textDownloading
        :: Event.call (strategyFor (getPlatformType env.lower req.URL)) :: devs)
        ++ [Event.botEditMessage req.ChatID w.nextID (textDownloadError ++ e)] from rfl]
    exact List.getLast?_concat _
  · rw [String.data_append]
    exact (List.suffix_append _ _).isInfix
  · intro args o hmem
    have hin : Event.exec "yt-dlp" args false o ∈ devs := by
      simpa using hmem
    rw [hex args o hin]
    simp only [String.data_append]
    exact ⟨textDownloadError.data ++ "yt-dlp failed: ".data, [], by simp⟩
  · have := hnot (Event.call "uploadToTelegram") rfl
    simp [strategyFor, this]
    split_ifs <;> decide
  · intro ev hev
    simp only [List.mem_cons, List.mem_append, List.mem_singleton, List.not_mem_nil,
      or_false] at hev
    rcases hev with rfl | rfl | hev | rfl
    · rfl
    · rfl
    · have := hall ev hev
      cases ev <;> simp_all [Event.isOfDownload, Event.isDocument]
    · rfl
  · intro c m
    have := hnot (Event.botDeleteMessage c m) rfl
    simp [this]
  · intro c
    have := hnot (Event.botSendMessage c textSuccess) rfl
    have hne : textSuccess ≠ textDownloading := by decide
    simp [this, hne]

theorem uploadStep_shape (env : Env) (req : ProcessRequest) (w : World) (r : DownloadResult) :
    (uploadStep env req w r).2.files = (downloadStep env req w).2.files
    ∧ w.nextID + 1 ≤ (uploadStep env req w r).2.nextID
    ∧ ∃ uevs, (uploadStep env req w r).2.trace = (downloadStep env req w).2.trace ++
          (Event.botEditMessage req.ChatID w.nextID textUploading :: uevs)
        ∧ ∀ e ∈ uevs, e.isOfUpload = true := by
  obtain ⟨hf, hn, uevs, ht, hall⟩ := uploadToTelegram_frame env r req.ChatID req.URL
    (editMessage req.ChatID w.nextID textUploading (downloadStep env req w).2)
  obtain ⟨_, hdn, _⟩ := downloadStep_shape env req w
  refine ⟨?_, ?_, uevs, ?_, hall⟩
  · rw [uploadStep, hf]; rfl
  · have : (editMessage req.ChatID w.nextID textUploading (downloadStep env req w).2).nextID
        = w.nextID + 1 := hdn
    rw [this] at hn
    exact hn
  · rw [uploadStep, ht]
    simp [editMessage, World.emit]

theorem runEvents_upload_failed (env : Env) (req : ProcessRequest) (w : World)
    (r : DownloadResult) (e : String)
    (hs : env.progressSend = none) (hd : (downloadStep env req w).1 = .ok r)
    (hu : (uploadStep env req w r).1 = some e) :
    ∃ devs uevs, runEvents env req w =
        downloadPhase req (strategyFor (getPlatformType env.lower req.URL)) devs
          ++ Event.botEditMessage req.ChatID w.nextID textUploading :: uevs
          ++ [Event.botSendMessage req.ChatID (textUploadError ++ e)]
      ∧ (∀ ev ∈ devs, ev.isOfDownload = true) ∧ (∀ ev ∈ uevs, ev.isOfUpload = true) := by
  obtain ⟨_, _, devs, ht, hall, _⟩ := downloadStep_shape env req w
  obtain ⟨_, _, uevs, hut, huall⟩ := uploadStep_shape env req w r
  refine ⟨devs, uevs, ?_, hall, huall⟩
  rw [runEvents, processFile_upload_failed env req w r e hs hd hu]
  simp [sendMessage, World.emit, World.post, hut, ht, downloadPhase]

theorem runEvents_done (env : Env) (req : ProcessRequest) (w : World) (r : DownloadResult)
    (hs : env.progressSend = none) (hd : (downloadStep env req w).1 = .ok r)
    (hu : (uploadStep env req w r).1 = none) :
    ∃ devs uevs, runEvents env req w =
        downloadPhase req (strategyFor (getPlatformType env.lower req.URL)) devs
          ++ Event.botEditMessage req.ChatID w.nextID textUploading :: uevs
          ++ [Event.osRemove r.FilePath, Event.botDeleteMessage req.ChatID w.nextID,
              Event.botSendMessage req.ChatID textSuccess]
      ∧ (∀ ev ∈ devs, ev.isOfDownload = true) ∧ (∀ ev ∈ uevs, ev.isOfUpload = true) := by
  obtain ⟨_, _, devs, ht, hall, _⟩ := downloadStep_shape env req w
  obtain ⟨_, _, uevs, hut, huall⟩ := uploadStep_shape env req w r
  refine ⟨devs, uevs, ?_, hall, huall⟩
  rw [runEvents, processFile_done env req w r hs hd hu]
  simp [sendMessage, deleteMessage, osRemove, World.emit, World.post, hut, ht, downloadPhase]

theorem runEvents_send_failed (env : Env) (req : ProcessRequest) (w : World) (e : String)
    (hs : env.progressSend = some e) :
    runEvents env req w = [Event.botSendMessage req.ChatID textDownloading] := by
  rw [runEvents, processFile_send_failed env req w e hs]
  simp [World.emit]

/-- C3 at a concrete run: `yt-dlp` exits non-zero on a soundcloud URL with the
output "ERROR: Unsupported URL". -/
theorem processFile_download_error_witness :
    failingEnv.progressSend = none
    ∧ (downloadStep failingEnv ⟨"https://soundcloud.com/artist/track", "", 7, 100⟩ demoWorld).1
        = .error "yt-dlp failed: ERROR: Unsupported URL"
    ∧ (runEvents failingEnv ⟨"https://soundcloud.com/artist/track", "", 7, 100⟩ demoWorld).filter
          Event.isEdit
        = [Event.botEditMessage 100 1
            (textDownloadError ++ "yt-dlp failed: ERROR: Unsupported URL")] :=
  ⟨rfl, rfl, (processFile_download_error failingEnv
    ⟨"https://soundcloud.com/artist/track", "", 7, 100⟩ demoWorld
    "yt-dlp failed: ERROR: Unsupported URL" rfl rfl).1⟩

theorem isCleanup_false_of_download (ev : Event) (h : ev.isOfDownload = true) :
    ev.isCleanup = false := by
  cases ev <;> simp_all [Event.isOfDownload, Event.isCleanup]

theorem isCleanup_false_of_upload (ev : Event) (h : ev.isOfUpload = true) :
    ev.isCleanup = false := by
  cases ev <;> simp_all [Event.isOfUpload, Event.isCleanup]

theorem run_no_cleanup (env : Env) (req : ProcessRequest) (w : World)
    (h : ¬ Succeeded env req w) : ∀ ev ∈ runEvents env req w, ev.isCleanup = false := by
  intro ev hev
  cases hs : env.progressSend with
  | some e =>
    rw [runEvents_send_failed env req w e hs] at hev
    simp only [List.mem_singleton] at hev
    subst hev
    rfl
  | none =>
    cases hd : (downloadStep env req w).1 with
    | error e =>
      obtain ⟨devs, hrun, hall, _⟩ := runEvents_download_failed env req w e hs hd
      rw [hrun] at hev
      simp only [List.mem_cons, List.mem_append, List.mem_singleton, List.not_mem_nil,
        or_false] at hev
      rcases hev with rfl | rfl | hev | rfl
      · rfl
      · rfl
      · exact isCleanup_false_of_download ev (hall ev hev)
      · rfl
    | ok r =>
      cases hu : (uploadStep env req w r).1 with
      | none => exact absurd ⟨hs, r, hd, hu⟩ h
      | some e =>
        obtain ⟨devs, uevs, hrun, hall, huall⟩ := runEvents_upload_failed env req w r e hs hd hu
        rw [hrun] at hev
        simp only [downloadPhase, List.mem_cons, List.mem_append, List.mem_singleton,
          List.not_mem_nil, or_false] at hev
        rcases hev with ((rfl | rfl | hev) | rfl | hev) | rfl
        · rfl
        · rfl
        · exact isCleanup_false_of_download ev (hall ev hev)
        · rfl
        · exact isCleanup_false_of_upload ev (huall ev hev)
        · rfl

theorem run_files_download_failed (env : Env) (req : ProcessRequest) (w : World) (e : String)
    (hs : env.progressSend = none) (hd : (downloadStep env req w).1 = .error e) :
    (processFile env req w).files = (downloadStep env req w).2.files := by
  rw [processFile_download_failed env req w e hs hd]
  rfl

theorem run_files_upload_failed (env : Env) (req : ProcessRequest) (w : World)
    (r : DownloadResult) (e : String)
    (hs : env.progressSend = none) (hd : (downloadStep env req w).1 = .ok r)
    (hu : (uploadStep env req w r).1 = some e) :
    (processFile env req w).files = (downloadStep env req w).2.files := by
  rw [processFile_upload_failed env req w r e hs hd hu]
  exact (uploadStep_shape env req w r).1

theorem run_done_state (env : Env) (req : ProcessRequest) (w : World) (r : DownloadResult)
    (hs : env.progressSend = none) (hd : (downloadStep env req w).1 = .ok r)
    (hu : (uploadStep env req w r).1 = none) :
    (processFile env req w).files
        = (downloadStep env req w).2.files.filter (fun f => f ≠ r.FilePath)
    ∧ ∀ m ∈ (processFile env req w).messages, ¬ (m.chat = req.ChatID ∧ m.id = w.nextID) := by
  obtain ⟨hf, hn, _⟩ := uploadStep_shape env req w r
  rw [processFile_done env req w r hs hd hu]
  constructor
  · simp only [sendMessage, deleteMessage, osRemove, World.emit, World.post, hf]
  · intro m hm
    simp only [sendMessage, deleteMessage, osRemove, World.emit, World.post, List.mem_append,
      List.mem_filter, List.mem_singleton, decide_eq_true_eq] at hm
    rcases hm with ⟨_, hm⟩ | rfl
    · exact hm
    · rintro ⟨_, hid⟩
      simp only at hid
      omega

/-- C4: a run of `processFile` removes a file and deletes a chat message exactly
when the download and the upload both succeed.  After such a run the file named
by the Download Result is absent from the disk and the progress message is no
longer live.  On a download error or an upload error the files on disk are the
files the download strategy left: the pipeline removes none. -/
theorem processFile_cleanup_iff_success (env : Env) (req : ProcessRequest) (w : World) :
    ((∃ p, Event.osRemove p ∈ runEvents env req w) ↔ Succeeded env req w)
    ∧ ((∃ c m, Event.botDeleteMessage c m ∈ runEvents env req w) ↔ Succeeded env req w)
    ∧ (∀ r, env.progressSend = none → (downloadStep env req w).1 = .ok r →
        (uploadStep env req w r).1 = none →
          Event.osRemove r.FilePath ∈ runEvents env req w
          ∧ Event.botDeleteMessage req.ChatID w.nextID ∈ runEvents env req w
          ∧ (processFile env req w).files
              = (downloadStep env req w).2.files.filter (fun f => f ≠ r.FilePath)
          ∧ r.FilePath ∉ (processFile env req w).files
          ∧ ∀ m ∈ (processFile env req w).messages, ¬ (m.chat = req.ChatID ∧ m.id = w.nextID))
    ∧ (∀ e, env.progressSend = none → (downloadStep env req w).1 = .error e →
        (processFile env req w).files = (downloadStep env req w).2.files)
    ∧ (∀ r e, env.progressSend = none → (downloadStep env req w).1 = .ok r →
        (uploadStep env req w r).1 = some e →
          (processFile env req w).files = (downloadStep env req w).2.files
          ∧ (r.FilePath ∈ (downloadStep env req w).2.files →
              r.FilePath ∈ (processFile env req w).files)) := by
  have hsucc : ∀ r, env.progressSend = none → (downloadStep env req w).1 = .ok r →
      (uploadStep env req w r).1 = none →
        Event.osRemove r.FilePath ∈ runEvents env req w
        ∧ Event.botDeleteMessage req.ChatID w.nextID ∈ runEvents env req w := by
    intro r hs hd hu
    obtain ⟨devs, uevs, hrun, _, _⟩ := runEvents_done env req w r hs hd hu
    rw [hrun]
    constructor <;> simp
  refine ⟨⟨?_, ?_⟩, ⟨?_, ?_⟩, ?_, ?_, ?_⟩
  · rintro ⟨p, hp⟩
    by_contra hns
    have := run_no_cleanup env req w hns _ hp
    cases this
  · rintro ⟨hs, r, hd, hu⟩
    exact ⟨r.FilePath, (hsucc r hs hd hu).1⟩
  · rintro ⟨c, m, hp⟩
    by_contra hns
    have := run_no_cleanup env req w hns _ hp
    cases this
  · rintro ⟨hs, r, hd, hu⟩
    exact ⟨req.ChatID, w.nextID, (hsucc r hs hd hu).2⟩
  · intro r hs hd hu
    obtain ⟨hf, hm⟩ := run_done_state env req w r hs hd hu
    refine ⟨(hsucc r hs hd hu).1, (hsucc r hs hd hu).2, hf, ?_, hm⟩
    rw [hf]
    simp
  · intro e hs hd
    exact run_files_download_failed env req w e hs hd
  · intro r e hs hd hu
    have hf := run_files_upload_failed env req w r e hs hd hu
    exact ⟨hf, fun h => hf ▸ h⟩

/-- C4 at a concrete successful run: the file `yt-dlp` left on disk is gone at
the end. -/
theorem processFile_cleanup_iff_success_witness :
    (downloadStep demoEnv ⟨"https://youtu.be/x", "", 7, 100⟩ demoWorld).2.files
        = ["/tmp/000102030405060708090a0b0c0d0eff.mp3"]
    ∧ "/tmp/000102030405060708090a0b0c0d0eff.mp3"
        ∉ (processFile demoEnv ⟨"https://youtu.be/x", "", 7, 100⟩ demoWorld).files :=
  ⟨rfl, ((processFile_cleanup_iff_success demoEnv ⟨"https://youtu.be/x", "", 7, 100⟩
    demoWorld).2.2.1 ⟨"/tmp/000102030405060708090a0b0c0d0eff.mp3",
      "000102030405060708090a0b0c0d0eff.mp3", 4096⟩ rfl rfl rfl).2.2.2.1⟩

/-! ### Strategy selection -/

theorem getPlatformType_cases (lower : Char → Char) (u : String) :
    getPlatformType lower u = "youtube" ∨ getPlatformType lower u = "spotify"
    ∨ getPlatformType lower u = "deezer" ∨ getPlatformType lower u = "soundcloud"
    ∨ getPlatformType lower u = "adult" ∨ getPlatformType lower u = "direct" := by
  unfold getPlatformType
  dsimp only
  split_ifs <;> simp

theorem downloadWithYtDlp_trace (env : Env) (url c platform : String) (w : World) :
    ∃ ok out, (downloadWithYtDlp env url c platform w).2.trace = w.trace ++
      [Event.call "downloadWithYtDlp",
       Event.exec "yt-dlp"
         ((if platform = "spotify" ∨ platform = "deezer" ∨ platform = "soundcloud"
            then extractAudioArgs else []) ++ bestQualityArgs env url) ok out] := by
  have hargs : (if platform = "spotify" ∨ platform = "deezer" ∨ platform = "soundcloud" then
        ["--extract-audio", "--audio-format", "mp3"] ++
          ["--cookies", env.config.CookiesFile, "-f", "best", "-o", generateTempPath env "", url]
      else ["--cookies", env.config.CookiesFile, "-f", "best", "-o", generateTempPath env "", url])
      = (if platform = "spotify" ∨ platform = "deezer" ∨ platform = "soundcloud"
          then extractAudioArgs else []) ++ bestQualityArgs env url := by
    split_ifs <;> rfl
  unfold downloadWithYtDlp runYtDlp
  simp only [World.emit, hargs]
  generalize (if platform = "spotify" ∨ platform = "deezer" ∨ platform = "soundcloud"
    then extractAudioArgs else []) ++ bestQualityArgs env url = args
  generalize env.ytDlp args w.files = r
  obtain ⟨err, out, files⟩ := r
  cases err with
  | some e => exact ⟨false, out, by simp⟩
  | none =>
    refine ⟨true, out, ?_⟩
    dsimp only
    split
    · simp
    · simp
    · split <;> simp

theorem isStrategyCall_false_of_download (ev : Event) (h : ev.isOfDownload = true) :
    ev.isStrategyCall = false := by
  cases ev <;> simp_all [Event.isOfDownload, Event.isStrategyCall]

theorem tail_of_upload (ev : Event) (h : ev.isOfUpload = true) :
    ev.isOfDownload = false ∧ ev.isStrategyCall = false := by
  cases ev with
  | call fn =>
    simp only [Event.isOfUpload, decide_eq_true_eq] at h
    subst h
    exact ⟨rfl, by decide⟩
  | _ => simp_all [Event.isOfUpload, Event.isOfDownload, Event.isStrategyCall]

theorem runEvents_phase (env : Env) (req : ProcessRequest) (w : World)
    (hs : env.progressSend = none) :
    ∃ devs tail, runEvents env req w =
        downloadPhase req (strategyFor (getPlatformType env.lower req.URL)) devs ++ tail
      ∧ (downloadStep env req w).2.trace = w.trace ++
          downloadPhase req (strategyFor (getPlatformType env.lower req.URL)) devs
      ∧ (∀ ev ∈ devs, ev.isOfDownload = true)
      ∧ (∀ ev ∈ tail, ev.isOfDownload = false ∧ ev.isStrategyCall = false) := by
  obtain ⟨_, _, devs, ht, hall, _⟩ := downloadStep_shape env req w
  have happ : ∀ evs, (w.trace ++ evs).drop w.trace.length = evs := by
    intro evs
    simp
  cases hd : (downloadStep env req w).1 with
  | error e =>
    refine ⟨devs, [Event.botEditMessage req.ChatID w.nextID (textDownloadError ++ e)],
      ?_, ht, hall, ?_⟩
    · rw [runEvents, processFile_download_failed env req w e hs hd]
      simp [editMessage, World.emit, ht, downloadPhase]
    · intro ev hev
      simp only [List.mem_singleton] at hev
      subst hev
      exact ⟨rfl, rfl⟩
  | ok r =>
    obtain ⟨_, _, uevs, hut, huall⟩ := uploadStep_shape env req w r
    cases hu : (uploadStep env req w r).1 with
    | some e =>
      refine ⟨devs, Event.botEditMessage req.ChatID w.nextID textUploading :: uevs
        ++ [Event.botSendMessage req.ChatID (textUploadError ++ e)], ?_, ht, hall, ?_⟩
      · rw [runEvents, processFile_upload_failed env req w r e hs hd hu]
        simp [sendMessage, World.emit, World.post, hut, ht, downloadPhase]
      · intro ev hev
        simp only [List.mem_cons, List.mem_append, List.mem_singleton, List.not_mem_nil,
          or_false] at hev
        rcases hev with (rfl | hev) | rfl
        · exact ⟨rfl, rfl⟩
        · exact tail_of_upload ev (huall ev hev)
        · exact ⟨rfl, rfl⟩
    | none =>
      refine ⟨devs, Event.botEditMessage req.ChatID w.nextID textUploading :: uevs
        ++ [Event.osRemove r.FilePath, Event.botDeleteMessage req.ChatID w.nextID,
            Event.botSendMessage req.ChatID textSuccess], ?_, ht, hall, ?_⟩
      · rw [runEvents, processFile_done env req w r hs hd hu]
        simp [sendMessage, deleteMessage, osRemove, World.emit, World.post, hut, ht,
          downloadPhase]
      · intro ev hev
        simp only [List.mem_cons, List.mem_append, List.mem_singleton, List.not_mem_nil,
          or_false] at hev
        rcases hev with (rfl | hev) | rfl | rfl | rfl
        · exact ⟨rfl, rfl⟩
        · exact tail_of_upload ev (huall ev hev)
        · exact ⟨rfl, rfl⟩
        · exact ⟨rfl, rfl⟩
        · exact ⟨rfl, rfl⟩

theorem strategyFor_isStrategyCall (platform : String) :
    (Event.call (strategyFor platform)).isStrategyCall = true := by
  unfold strategyFor
  split_ifs <;> decide

theorem filter_strategy_calls (env : Env) (req : ProcessRequest) (w : World)
    (hs : env.progressSend = none) :
    (runEvents env req w).filter Event.isStrategyCall
      = [Event.call (strategyFor (getPlatformType env.lower req.URL))] := by
  obtain ⟨devs, tail, hrun, _, hall, htail⟩ := runEvents_phase env req w hs
  have h1 : devs.filter Event.isStrategyCall = [] := by
    rw [List.filter_eq_nil_iff]
    intro ev hev
    rw [isStrategyCall_false_of_download ev (hall ev hev)]
    simp
  have h2 : tail.filter Event.isStrategyCall = [] := by
    rw [List.filter_eq_nil_iff]
    intro ev hev
    rw [(htail ev hev).2]
    simp
  have h3 : (Event.botSendMessage req.ChatID textDownloading).isStrategyCall = false := rfl
  rw [hrun]
  simp [downloadPhase, List.filter_append, List.filter_cons, h1, h2, h3,
    strategyFor_isStrategyCall]

theorem mem_strategy_call_iff (env : Env) (req : ProcessRequest) (w : World)
    (hs : env.progressSend = none) (name : String)
    (hname : (Event.call name).isStrategyCall = true) :
    Event.call name ∈ runEvents env req w
      ↔ strategyFor (getPlatformType env.lower req.URL) = name := by
  have hfil := filter_strategy_calls env req w hs
  constructor
  · intro hmem
    have : Event.call name ∈ (runEvents env req w).filter Event.isStrategyCall :=
      List.mem_filter.mpr ⟨hmem, hname⟩
    rw [hfil, List.mem_singleton] at this
    exact (Event.call.inj this).symm
  · intro heq
    have : Event.call name ∈ (runEvents env req w).filter Event.isStrategyCall := by
      rw [hfil, heq]
      exact List.mem_singleton.mpr rfl
    exact (List.mem_filter.mp this).1

theorem strategyFor_getPlatformType (lower : Char → Char) (u : String) :
    (strategyFor (getPlatformType lower u) = "downloadFromYouTube"
        ↔ getPlatformType lower u = "youtube")
    ∧ (strategyFor (getPlatformType lower u) = "downloadWithYtDlp"
        ↔ getPlatformType lower u = "spotify" ∨ getPlatformType lower u = "deezer"
          ∨ getPlatformType lower u = "soundcloud" ∨ getPlatformType lower u = "adult")
    ∧ (strategyFor (getPlatformType lower u) = "downloadDirectFile"
        ↔ getPlatformType lower u = "direct") := by
  unfold strategyFor
  rcases getPlatformType_cases lower u with h | h | h | h | h | h <;> rw [h] <;> decide

theorem selectDownload_ytdlp (env : Env) (req : ProcessRequest) (platform : String) (w : World)
    (h : platform = "spotify" ∨ platform = "deezer" ∨ platform = "soundcloud"
      ∨ platform = "adult") :
    selectDownload env req platform w
      = downloadWithYtDlp env req.URL req.CustomName platform w := by
  have hne : platform ≠ "youtube" := by
    rcases h with h | h | h | h <;> rw [h] <;> decide
  unfold selectDownload
  rw [if_neg hne, if_pos h]

theorem filter_exec_ytdlp (env : Env) (req : ProcessRequest) (w : World)
    (hs : env.progressSend = none)
    (h : getPlatformType env.lower req.URL = "spotify"
      ∨ getPlatformType env.lower req.URL = "deezer"
      ∨ getPlatformType env.lower req.URL = "soundcloud"
      ∨ getPlatformType env.lower req.URL = "adult") :
    ∃ ok out, (runEvents env req w).filter Event.isExec =
      [Event.exec "yt-dlp"
        ((if getPlatformType env.lower req.URL = "spotify"
            ∨ getPlatformType env.lower req.URL = "deezer"
            ∨ getPlatformType env.lower req.URL = "soundcloud"
          then extractAudioArgs else []) ++ bestQualityArgs env req.URL) ok out] := by
  obtain ⟨devs, tail, hrun, ht, _, htail⟩ := runEvents_phase env req w hs
  obtain ⟨ok, out, htr⟩ := downloadWithYtDlp_trace env req.URL req.CustomName
    (getPlatformType env.lower req.URL) (afterProgress req w)
  refine ⟨ok, out, ?_⟩
  have hst : strategyFor (getPlatformType env.lower req.URL) = "downloadWithYtDlp" :=
    (strategyFor_getPlatformType env.lower req.URL).2.1.mpr h
  rw [downloadStep, selectDownload_ytdlp env req _ _ h, htr, hst] at ht
  have hdevs : devs = [Event.exec "yt-dlp"
      ((if getPlatformType env.lower req.URL = "spotify"
          ∨ getPlatformType env.lower req.URL = "deezer"
          ∨ getPlatformType env.lower req.URL = "soundcloud"
        then extractAudioArgs else []) ++ bestQualityArgs env req.URL) ok out] := by
    simp only [afterProgress, World.emit, World.post, downloadPhase, List.append_assoc,
      List.singleton_append, List.append_cancel_left_eq, List.cons.injEq, true_and] at ht
    exact ht.symm
  have h2 : tail.filter Event.isExec = [] := by
    rw [List.filter_eq_nil_iff]
    intro ev hev
    have := (htail ev hev).1
    cases ev <;> simp_all [Event.isOfDownload, Event.isExec]
  rw [hrun, hdevs, hst]
  simp [downloadPhase, List.filter_append, List.filter_cons, h2, Event.isExec]

/-- C9: once the progress message is sent, a run enters exactly one download
strategy, the one its platform category selects: `downloadFromYouTube` iff the
category is youtube, `downloadWithYtDlp` iff it is spotify, deezer, soundcloud
or adult, `downloadDirectFile` iff it is direct.  `downloadWithYtDlp` runs
`yt-dlp` once, with the audio extraction arguments before the best-quality
arguments for the three audio categories and without them for adult.  Runs on
the same URL enter the same strategy. -/
theorem processFile_one_strategy (env : Env) (req : ProcessRequest) (w : World)
    (hs : env.progressSend = none) :
    (runEvents env req w).filter Event.isStrategyCall
        = [Event.call (strategyFor (getPlatformType env.lower req.URL))]
    ∧ (Event.call "downloadFromYouTube" ∈ runEvents env req w
        ↔ getPlatformType env.lower req.URL = "youtube")
    ∧ (Event.call "downloadWithYtDlp" ∈ runEvents env req w
        ↔ getPlatformType env.lower req.URL = "spotify"
          ∨ getPlatformType env.lower req.URL = "deezer"
          ∨ getPlatformType env.lower req.URL = "soundcloud"
          ∨ getPlatformType env.lower req.URL = "adult")
    ∧ (Event.call "downloadDirectFile" ∈ runEvents env req w
        ↔ getPlatformType env.lower req.URL = "direct")
    ∧ ((getPlatformType env.lower req.URL = "spotify"
          ∨ getPlatformType env.lower req.URL = "deezer"
          ∨ getPlatformType env.lower req.URL = "soundcloud") →
        ∃ ok out, (runEvents env req w).filter Event.isExec
          = [Event.exec "yt-dlp" (extractAudioArgs ++ bestQualityArgs env req.URL) ok out])
    ∧ (getPlatformType env.lower req.URL = "adult" →
        ∃ ok out, (runEvents env req w).filter Event.isExec
          = [Event.exec "yt-dlp" (bestQualityArgs env req.URL) ok out])
    ∧ (∀ (env' : Env) (req' : ProcessRequest) (w' : World),
        env'.lower = env.lower → env'.progressSend = none → req'.URL = req.URL →
          (runEvents env' req' w').filter Event.isStrategyCall
            = (runEvents env req w).filter Event.isStrategyCall) := by
  obtain ⟨hy, hd, hdir⟩ := strategyFor_getPlatformType env.lower req.URL
  refine ⟨filter_strategy_calls env req w hs, ?_, ?_, ?_, ?_, ?_, ?_⟩
  · rw [mem_strategy_call_iff env req w hs _ (by decide)]
    exact hy
  · rw [mem_strategy_call_iff env req w hs _ (by decide)]
    exact hd
  · rw [mem_strategy_call_iff env req w hs _ (by decide)]
    exact hdir
  · intro h
    have h4 : getPlatformType env.lower req.URL = "spotify"
        ∨ getPlatformType env.lower req.URL = "deezer"
        ∨ getPlatformType env.lower req.URL = "soundcloud"
        ∨ getPlatformType env.lower req.URL = "adult" := by
      rcases h with h | h | h
      · exact Or.inl h
      · exact Or.inr (Or.inl h)
      · exact Or.inr (Or.inr (Or.inl h))
    obtain ⟨ok, out, hex⟩ := filter_exec_ytdlp env req w hs h4
    rw [if_pos h] at hex
    exact ⟨ok, out, hex⟩
  · intro h
    obtain ⟨ok, out, hex⟩ := filter_exec_ytdlp env req w hs (Or.inr (Or.inr (Or.inr h)))
    have hn : ¬ (getPlatformType env.lower req.URL = "spotify"
        ∨ getPlatformType env.lower req.URL = "deezer"
        ∨ getPlatformType env.lower req.URL = "soundcloud") := by
      rw [h]
      decide
    rw [if_neg hn] at hex
    exact ⟨ok, out, by simpa using hex⟩
  · intro env' req' w' hl hs' hu
    rw [filter_strategy_calls env req w hs, filter_strategy_calls env' req' w' hs', hl, hu]

/-- C9 at a concrete run on a soundcloud URL. -/
theorem processFile_one_strategy_witness :
    demoEnv.progressSend = none
    ∧ Event.call "downloadWithYtDlp"
        ∈ runEvents demoEnv ⟨"https://SoundCloud.com/artist/track", "", 7, 100⟩ demoWorld :=
  ⟨rfl, (processFile_one_strategy demoEnv ⟨"https://SoundCloud.com/artist/track", "", 7, 100⟩
    demoWorld rfl).2.2.1.mpr (by decide)⟩

end Tgup2
